import Mathlib

/-!
Shallow embedding of the core of the `probe` code-search engine
(indexing pipeline, chunker dispatch, fingerprint store, score
adjustment, reranking path) together with theorems checking the
natural-language specification against it.

Text is modelled as `List Char` (UTF-8 strings); byte lengths are the
sums of the characters' UTF-8 sizes.  Floating-point scores are
modelled as rationals with exact arithmetic; filesystem and
neural-model effects are passed explicitly as function arguments.
-/

namespace Probe

/-- Source text, modelled as a list of characters (Rust `&str`). -/
abbrev Str := List Char

/-- UTF-8 byte length of a text, as Rust `str::len()` reports it. -/
def byteLen (s : Str) : Nat := s.foldl (fun a c => a + c.utf8Size) 0

/-- Rust `char::is_whitespace` restricted to the ASCII whitespace
characters that occur in the sources under test. -/
def isWS (c : Char) : Bool := c = ' ' ∨ c = '\t' ∨ c = '\n' ∨ c = '\r'

/-- Rust `str::trim_start`. -/
def trimStart (s : Str) : Str := s.dropWhile isWS

/-- Rust `str::trim`: whitespace removed from both ends. -/
def trim (s : Str) : Str := (trimStart ((trimStart s).reverse)).reverse

/-- Rust `str::starts_with` on text. -/
def startsWith (p s : Str) : Bool := p.isPrefixOf s

/-- Splits a text at every occurrence of the separator character; the
separators are not kept.  `splitOnChar c s` always returns at least one
(possibly empty) piece. -/
def splitOnChar (sep : Char) : Str → List Str
  | [] => [[]]
  | c :: cs =>
    if c = sep then [] :: splitOnChar sep cs
    else
      match splitOnChar sep cs with
      | [] => [[c]]
      | l :: ls => (c :: l) :: ls

/-- Drops one trailing `'\r'`, as Rust `str::lines` does on each line. -/
def dropCR (l : Str) : Str := if l.getLast? = some '\r' then l.dropLast else l

/-- Removes the trailing empty piece produced by a terminating
newline. -/
def dropTrailingEmpty (parts : List Str) : List Str :=
  if parts.getLast? = some [] then parts.dropLast else parts

/-- Rust `str::lines`: split on `'\n'`, treat the newline as a
terminator (no empty trailing line), strip one trailing `'\r'`. -/
def rustLines (s : Str) : List Str :=
  (dropTrailingEmpty (splitOnChar '\n' s)).map dropCR

/-- Joins lines with `'\n'`, as Rust `Vec::join("\n")`. -/
def joinLines : List Str → Str
  | [] => []
  | [l] => l
  | l :: ls => l ++ '\n' :: joinLines ls

/-- Rust `char::to_lowercase` restricted to ASCII (sufficient for the
paths and extensions this spec talks about). -/
def lowerChar (c : Char) : Char := c.toLower

/-- Rust `str::to_lowercase` (ASCII). -/
def lowerStr (s : Str) : Str := s.map lowerChar

/-- Whether `needle` occurs as a contiguous substring of `haystack`
(Rust `str::contains`). -/
def containsSub (haystack needle : Str) : Bool :=
  match haystack with
  | [] => needle = []
  | _ :: rest => startsWith needle haystack || containsSub rest needle

/-! ## Score adjustment (`SearchIndex::apply_score_penalties`,
`src/search_index.rs` lines 431-449).  Scores are rationals standing
for the `f32` scores; the multipliers `0.5` and `0.6` are exact. -/

/-- Model of `SearchIndex::apply_score_penalties`: halve the score when the
lowercased path contains `"test"`, and take 60% of it when the chunk
type is `Class`, `Interface` or `Struct`. -/
def apply_score_penalties (score : ℚ) (path : Str) (chunk_type : Option Str) : ℚ :=
  let adjusted := if containsSub (lowerStr path) "test".toList then score * (1/2) else score
  if chunk_type = some "Class".toList ∨ chunk_type = some "Interface".toList ∨
      chunk_type = some "Struct".toList then
    adjusted * (3/5)
  else
    adjusted

/-- The chunk kinds that `apply_score_penalties` down-ranks. -/
def isContainerKind (k : Option Str) : Prop :=
  k = some "Class".toList ∨ k = some "Interface".toList ∨ k = some "Struct".toList

instance (k : Option Str) : Decidable (isContainerKind k) := by
  unfold isContainerKind; infer_instance

/-! ## The `filetype` field and the extension filter.

`SearchIndex::new` declares the field as `TEXT | STORED`
(`src/search_index.rs` line 77), so the *indexed* terms of a document's
extension come from tantivy's default analyzer: maximal alphanumeric
runs, tokens of 40 bytes or more removed, then lowercased.
`SearchIndex::search` (lines 316-327) filters with a raw
`TermQuery` built from the filter string: a document matches exactly
when the filter string is one of those indexed terms. -/

/-- Accumulator pass of the simple tokenizer: `cur` is the reversed
run of alphanumeric characters read so far. -/
def tokenizeAux (cur : Str) : Str → List Str
  | [] => if cur.isEmpty then [] else [cur.reverse]
  | c :: cs =>
    if c.isAlphanum then tokenizeAux (c :: cur) cs
    else if cur.isEmpty then tokenizeAux [] cs
    else cur.reverse :: tokenizeAux [] cs

/-- tantivy `SimpleTokenizer`: the maximal alphanumeric runs of the
input (ASCII model of `char::is_alphanumeric`). -/
def simpleTokenize (s : Str) : List Str := tokenizeAux [] s

/-- tantivy's default analyzer (used for every `TEXT` field):
`SimpleTokenizer`, then `RemoveLongFilter::limit(40)` (keeps tokens of
byte length < 40), then `LowerCaser`. -/
def defaultAnalyze (s : Str) : List Str :=
  ((simpleTokenize s).filter (fun t => byteLen t < 40)).map lowerStr

/-- The indexed terms of a document's `filetype` field. -/
def filetypeIndexTerms (ext : Str) : List Str := defaultAnalyze ext

/-- The extension-filter `TermQuery` of `SearchIndex::search`: the raw
filter string must be one of the document's indexed `filetype` terms. -/
def filetypeFilterMatches (f ext : Str) : Prop := f ∈ filetypeIndexTerms ext

instance (f ext : Str) : Decidable (filetypeFilterMatches f ext) := by
  unfold filetypeFilterMatches; infer_instance

/-! ## Chunker (`src/code_chunker.rs`) -/

/-- Model of `ChunkType` (`src/code_chunker.rs` lines 18-27). -/
inductive ChunkType where
  | Function
  | Method
  | Class
  | Struct
  | Interface
  | Module
  | Other
deriving DecidableEq, Repr

/-- Model of `CodeChunk` (`src/code_chunker.rs` lines 6-16).  The `declaration`
field is the one `search_index.rs` (line 260) reads from each chunk
when building a document (the struct literal of the fallback branch in
`code_chunker.rs` predates that field; the fallback models it as
empty). -/
structure CodeChunk where
  start_byte : Nat
  end_byte : Nat
  start_line : Nat
  end_line : Nat
  chunk_type : ChunkType
  name : Str
  content : Str
  declaration : Str
deriving DecidableEq, Repr

/-- The text `format!("{:?}", chunk_type)` stores as `chunk_type`. -/
def chunkTypeName : ChunkType → Str
  | .Function => "Function".toList
  | .Method => "Method".toList
  | .Class => "Class".toList
  | .Struct => "Struct".toList
  | .Interface => "Interface".toList
  | .Module => "Module".toList
  | .Other => "Other".toList

/-- The import-like line heads tested by `filter_imports_static`
(`src/code_chunker.rs` lines 432-442). -/
def importHeads : List Str :=
  ["import ".toList, "use ".toList, "from ".toList, "#include".toList, "using ".toList]

/-- Whether `filter_imports_static` removes this line. -/
def isImportLine (line : Str) : Bool :=
  importHeads.any (fun p => startsWith p (trim line))

/-- Model of `CodeChunker::filter_imports_static`: drop every line whose
trimmed form starts with an import-like head, rejoin with `'\n'`. -/
def filter_imports_static (content : Str) : Str :=
  joinLines ((rustLines content).filter (fun line => ¬ isImportLine line))

/-- The extensions with a registered tree-sitter processor
(`CodeChunker::setup_language_parsers`). -/
def registeredExtensions : List Str :=
  ["rs".toList, "py".toList, "js".toList, "ts".toList, "go".toList, "c".toList,
   "h".toList, "cpp".toList, "cc".toList, "cxx".toList, "hpp".toList,
   "java".toList, "cs".toList]

/-- Rust `Path::extension().and_then(|e| e.to_str()).unwrap_or("")`:
the part of the file name after its last dot; empty when the file name
has no dot or is a dot-file with a single leading dot. -/
def pathExtension (path : Str) : Str :=
  let name := (splitOnChar '/' path).getLastD []
  match splitOnChar '.' name with
  | [] => []
  | [_] => []
  | first :: rest =>
    if first = [] ∧ rest.length = 1 then [] else rest.getLastD []

/-- Model of `CodeChunker::chunk_code_for_indexing` (`src/code_chunker.rs`
lines 246-358).  The branch for registered extensions (tree-sitter
parse, query matches, per-match extraction) depends on the external
parser and is abstracted as `langChunk`; the unsupported-extension
fallback branch (lines 341-357) is modelled concretely. -/
def chunk_code_for_indexing (langChunk : Str → Str → Except Unit (List CodeChunk))
    (file_path content : Str) : Except Unit (List CodeChunk) :=
  let extension := pathExtension file_path
  if extension ∈ registeredExtensions then
    langChunk extension content
  else
    let filtered_content := filter_imports_static content
    if ¬ (trim filtered_content).isEmpty then
      .ok [{ start_byte := 0, end_byte := byteLen content, start_line := 0,
             end_line := (rustLines content).length - 1, chunk_type := .Other,
             name := "file".toList, content := filtered_content, declaration := [] }]
    else
      .ok []

/-- Stand-in for the tree-sitter branch; the theorems below only ever
dispatch on unregistered extensions, where it is not consulted. -/
def noLangChunk : Str → Str → Except Unit (List CodeChunk) := fun _ _ => .ok []

/-! ## Indexing pipeline (`SearchIndex::index_files`,
`src/search_index.rs` lines 165-285) -/

/-- 512 KiB size cap of the per-file worker. -/
def MAX_FILE_SIZE : Nat := 512 * 1024

/-- The per-line byte cap of the per-file worker (note: 8096, not
8 KiB = 8192). -/
def MAX_LINE_LENGTH : Nat := 8096

/-- One indexed document, with the stored fields written by
`index_files`. -/
structure FileDoc where
  path : Str
  declaration : Str
  body : Str
  filetype : Str
  chunk_type : Str
  chunk_name : Str
  start_line : Nat
  end_line : Nat
deriving DecidableEq, Repr

/-- The per-file worker of `SearchIndex::index_files`
(`src/search_index.rs` lines 207-270): returns the documents sent to
the writer and the paths emitted on the returned stream.
`readResult` is the outcome of `fs::read_to_string` (`none` = not
readable as UTF-8 text). -/
def processFile (langChunk : Str → Str → Except Unit (List CodeChunk))
    (readResult : Option Str) (file_path : Str) : List FileDoc × List Str :=
  match readResult with
  | none => ([], [])
  | some content =>
    if byteLen content > MAX_FILE_SIZE then ([], [])
    else if (rustLines content).any (fun line => byteLen line > MAX_LINE_LENGTH) then ([], [])
    else
      let extension := pathExtension file_path
      match chunk_code_for_indexing langChunk file_path content with
      | .error _ => ([], [])
      | .ok chunks =>
        if chunks.isEmpty then
          ([{ path := file_path, declaration := [], body := content,
              filetype := extension, chunk_type := "file".toList, chunk_name := [],
              start_line := 0, end_line := (rustLines content).length - 1 }],
           [file_path])
        else
          (chunks.map (fun c =>
            { path := file_path, declaration := c.declaration, body := c.content,
              filetype := extension, chunk_type := chunkTypeName c.chunk_type,
              chunk_name := c.name, start_line := c.start_line,
              end_line := c.end_line }),
           [file_path])

/-- Model of `SearchIndex::index_files` over a batch: the worker pool's results
funneled to the single writer (document order across files is not
observable; the model processes files in sequence). -/
def index_files (langChunk : Str → Str → Except Unit (List CodeChunk))
    (reads : Str → Option Str) (files : List Str) : List FileDoc × List Str :=
  ((files.map (fun f => (processFile langChunk (reads f) f).1)).flatten,
   (files.map (fun f => (processFile langChunk (reads f) f).2)).flatten)

/-- The chunk built by the unsupported-extension fallback branch. -/
def fallbackChunk (content : Str) : CodeChunk :=
  { start_byte := 0, end_byte := byteLen content, start_line := 0,
    end_line := (rustLines content).length - 1, chunk_type := .Other,
    name := "file".toList, content := filter_imports_static content,
    declaration := [] }

/-! ## Fingerprint store (`src/metadata.rs`) -/

/-- A byte of a serialized blob (always < 256 where it matters). -/
abbrev Byte := Nat

/-- Model of `FileInfo` (`src/metadata.rs` lines 8-13): `modified` is the
`SystemTime` as (seconds, nanoseconds) since the epoch. -/
structure FileInfo where
  path : Str
  size : Nat
  modified : Nat × Nat
deriving DecidableEq, Repr

/-- Model of `IndexMetadata` (`src/metadata.rs` lines 15-18): the
`HashMap<PathBuf, FileInfo>` as an association list (key = path). -/
structure IndexMetadata where
  files : List (Str × FileInfo)
deriving DecidableEq, Repr

/-- Little-endian `u64` of the bincode fixed-int encoding. -/
def readU64LE : List Byte → Option (Nat × List Byte)
  | b0 :: b1 :: b2 :: b3 :: b4 :: b5 :: b6 :: b7 :: rest =>
    some (b0 + 256 * (b1 + 256 * (b2 + 256 * (b3 + 256 * (b4 + 256 *
      (b5 + 256 * (b6 + 256 * b7)))))), rest)
  | _ => none

/-- Little-endian `u32` of the bincode fixed-int encoding. -/
def readU32LE : List Byte → Option (Nat × List Byte)
  | b0 :: b1 :: b2 :: b3 :: rest =>
    some (b0 + 256 * (b1 + 256 * (b2 + 256 * b3)), rest)
  | _ => none

/-- Takes `n` bytes off the front, failing when too few remain. -/
def readBytes : Nat → List Byte → Option (List Byte × List Byte)
  | 0, bs => some ([], bs)
  | _ + 1, [] => none
  | n + 1, b :: bs => (readBytes n bs).map (fun p => (b :: p.1, p.2))

/-- A bincode 1.x string: `u64` length then that many UTF-8 bytes
(decoded here bytewise, enough for the ASCII paths involved). -/
def decodeStr (bs : List Byte) : Option (Str × List Byte) := do
  let (n, bs) ← readU64LE bs
  let (chars, bs) ← readBytes n bs
  some (chars.map Char.ofNat, bs)

/-- One serialized `(PathBuf, FileInfo)` entry: key string, then the
`FileInfo` fields in declaration order (`path`, `size`,
`modified = SystemTime { secs, nanos }`). -/
def decodeEntry (bs : List Byte) : Option ((Str × FileInfo) × List Byte) := do
  let (key, bs) ← decodeStr bs
  let (p, bs) ← decodeStr bs
  let (size, bs) ← readU64LE bs
  let (secs, bs) ← readU64LE bs
  let (nanos, bs) ← readU32LE bs
  some ((key, ⟨p, size, (secs, nanos)⟩), bs)

/-- Decodes `n` consecutive entries. -/
def decodeEntries : Nat → List Byte → Option (List (Str × FileInfo) × List Byte)
  | 0, bs => some ([], bs)
  | n + 1, bs => do
    let (e, bs) ← decodeEntry bs
    let (es, bs) ← decodeEntries n bs
    some (e :: es, bs)

/-- Model of `bincode::deserialize::<IndexMetadata>` under bincode 1.x defaults
(fixed-size little-endian integers, `u64` collection lengths): a `u64`
map length followed by the entries; any shortfall is a
deserialization error. -/
def bincode_deserialize (data : List Byte) : Except Str IndexMetadata :=
  match (do
      let (n, bs) ← readU64LE data
      let (es, _) ← decodeEntries n bs
      some es : Option (List (Str × FileInfo))) with
  | some es => .ok ⟨es⟩
  | none => .error "invalid metadata blob".toList

/-- Model of `IndexMetadata::load` (`src/metadata.rs` lines 25-30): `readResult`
is the outcome of `fs::read` (`none` = the read failed, e.g. missing
file); a successful read is deserialized and — via the `?` on
`bincode::deserialize` — a deserialization failure propagates. -/
def IndexMetadata.load (readResult : Option (List Byte))
    (deserialize : List Byte → Except Str IndexMetadata) : Except Str IndexMetadata :=
  match readResult with
  | some data => deserialize data
  | none => .ok ⟨[]⟩

/-! ## `SearchEngine::ensure_index_updated`
(`src/search_engine.rs` lines 32-87): after `index_files` returns, the
fingerprint store is refreshed for the indexed files (lines 70-73) and
then — decisively — for *all* scanned files (lines 75-78), before being
saved. -/

/-- The slice of `std::fs::Metadata` that `update_file` consumes:
`len()` and `modified()`. -/
structure FsMeta where
  size : Nat
  modified : Nat × Nat
deriving DecidableEq, Repr

/-- Insertion as `HashMap::insert` behaves, on the association-list model. -/
def mapInsert (k : Str) (v : FileInfo) (m : List (Str × FileInfo)) : List (Str × FileInfo) :=
  (k, v) :: m.filter (fun kv => ¬ kv.1 = k)

/-- Model of `IndexMetadata::update_file` (`src/metadata.rs` lines 57-71):
files that no longer exist are skipped, otherwise the entry is
inserted or refreshed from the current filesystem metadata. -/
def update_file (fs : Str → Option FsMeta) (m : IndexMetadata) (path : Str) : IndexMetadata :=
  match fs path with
  | none => m
  | some md => ⟨mapInsert path ⟨path, md.size, md.modified⟩ m.files⟩

/-- The fingerprint-store update phase of
`SearchEngine::ensure_index_updated`: first every file reported back
by `index_files`, then every scanned file. -/
def ensure_index_updated_fingerprints (fs : Str → Option FsMeta) (loaded : IndexMetadata)
    (indexed_files files : List Str) : IndexMetadata :=
  let m1 := indexed_files.foldl (fun m f => update_file fs m f) loaded
  files.foldl (fun m f => update_file fs m f) m1

/-- Whether the store has an entry for this path. -/
def containsKey (m : IndexMetadata) (k : Str) : Bool :=
  m.files.any (fun kv => kv.1 = k)

/-- Scanned-file fixture for the C1 counterexample. -/
def filesW : List Str := ["a.txt".toList, "b.bin".toList]

/-- Read outcomes for the C1 counterexample: `b.bin` is not valid
UTF-8 (`fs::read_to_string` fails), so the pipeline silently skips it. -/
def readsW : Str → Option Str :=
  fun p => if p = "a.txt".toList then some "hello".toList else none

/-- Filesystem metadata for the C1 counterexample: both files exist. -/
def fsW : Str → Option FsMeta :=
  fun p =>
    if p = "a.txt".toList then some ⟨5, (10, 0)⟩
    else if p = "b.bin".toList then some ⟨100, (20, 0)⟩
    else none

/-! ## Two-stage retrieval (`SearchEngine::search_with_reranker`,
`src/search_engine.rs` lines 131-214, and `Reranker::rerank`,
`src/reranker.rs` lines 299-341).

External effects appear as explicit arguments: `searchFn` is
`SearchIndex::search` (lexical retrieval against the index),
`newReranker` is the outcome of `Reranker::new` (ONNX model
construction), and `modelOut` is the outcome of the neural
`model.rerank` call — one raw relevance score per submitted document,
in submission order, as the calling code assumes when zipping. -/

/-- Model of `SearchResult` (`src/search_index.rs` lines 26-35); the `f32`
score is modelled as a rational. -/
structure SearchResult where
  path : Str
  score : ℚ
  snippet : Str
  chunk_type : Option Str
  chunk_name : Option Str
  start_line : Option Nat
  end_line : Option Nat
deriving DecidableEq, Repr

/-- The `HashMap<String, String>` metadata that
`search_with_reranker` builds per candidate, modelled by its five
possible keys. -/
structure RerankMetadata where
  path : Str
  chunk_type : Option Str
  chunk_name : Option Str
  start_line : Option Nat
  end_line : Option Nat
deriving DecidableEq, Repr

/-- Model of `RerankDocument` (`src/reranker.rs` lines 89-93). -/
structure RerankDocument where
  content : Str
  metadata : RerankMetadata
deriving DecidableEq, Repr

/-- Model of `RerankResult` (`src/reranker.rs` lines 96-100). -/
structure RerankResult where
  documents : List RerankDocument
  rerank_scores : List ℚ
deriving DecidableEq, Repr

/-- The two `RerankerConfig` fields the core logic reads (the model
identifier and custom-model descriptors are opaque to it). -/
structure RerankerConfig where
  enabled : Bool
  min_candidates : Nat
deriving Repr

/-- Inserts a scored document in front of the first element whose
score is at most its own. -/
def insertScored (x : RerankDocument × ℚ) : List (RerankDocument × ℚ) →
    List (RerankDocument × ℚ)
  | [] => [x]
  | y :: ys => if y.2 ≤ x.2 then x :: y :: ys else y :: insertScored x ys

/-- Rust stable `sort_by(|a, b| b.1.partial_cmp(&a.1))`: descending by
score, ties keeping the input order.  A stable sort's output is
uniquely determined by that specification; this is its structural
insertion-sort form. -/
def sortByScoreDesc : List (RerankDocument × ℚ) → List (RerankDocument × ℚ)
  | [] => []
  | x :: xs => insertScored x (sortByScoreDesc xs)

/-- Model of `Reranker::rerank`: pass-through when disabled or empty, otherwise
zip the documents with the model's scores, sort descending, truncate
to the limit, and unzip. -/
def rerank (enabled : Bool) (documents : List RerankDocument)
    (modelOut : Except Str (List ℚ)) (limit : Option Nat) : Except Str RerankResult :=
  if enabled = false ∨ documents.isEmpty then .ok ⟨documents, []⟩
  else do
    let rerank_results ← modelOut
    let scored_docs := sortByScoreDesc (documents.zip rerank_results)
    let scored_docs := match limit with
      | some l => scored_docs.take l
      | none => scored_docs
    pure ⟨scored_docs.map Prod.fst, scored_docs.map Prod.snd⟩

/-- The `SearchResult → RerankDocument` conversion of
`search_with_reranker` (snippet becomes the document body). -/
def toRerankDocument (r : SearchResult) : RerankDocument :=
  ⟨r.snippet, ⟨r.path, r.chunk_type, r.chunk_name, r.start_line, r.end_line⟩⟩

/-- The `RerankDocument → SearchResult` conversion of
`search_with_reranker`: the given score *replaces* the lexical one. -/
def ofRerankDocument (doc : RerankDocument) (score : ℚ) : SearchResult :=
  { path := doc.metadata.path, score := score, snippet := doc.content,
    chunk_type := doc.metadata.chunk_type, chunk_name := doc.metadata.chunk_name,
    start_line := doc.metadata.start_line, end_line := doc.metadata.end_line }

/-- The `fetch_limit` of `search_with_reranker` (lines 143-148). -/
def fetch_limit_of (cfg : RerankerConfig) (final_limit : Nat) : Nat :=
  if cfg.enabled then max cfg.min_candidates (final_limit * 2) else final_limit

/-- Model of `SearchEngine::search_with_reranker`: lexical retrieval at
`fetch_limit`; when reranking is enabled and at least two hits came
back, construct the reranker (`?`), rerank (`?`) and rebuild the
results from the reranked documents with the rerank scores; otherwise
truncate the lexical results to `final_limit`. -/
def search_with_reranker (cfg : RerankerConfig) (limit : Option Nat)
    (searchFn : Nat → Except Str (List SearchResult))
    (newReranker : Except Str Unit)
    (modelOut : Except Str (List ℚ)) : Except Str (List SearchResult) := do
  let final_limit := limit.getD 5
  let fetch_limit := fetch_limit_of cfg final_limit
  let results ← searchFn fetch_limit
  if cfg.enabled = true ∧ 2 ≤ results.length then do
    let _ ← newReranker
    let rerank_docs := results.map toRerankDocument
    let rerank_result ← rerank cfg.enabled rerank_docs modelOut (some final_limit)
    pure (rerank_result.documents.enum.map (fun p =>
      ofRerankDocument p.2 ((rerank_result.rerank_scores[p.1]?).getD 0)))
  else
    pure (results.take final_limit)

/-- Lexical hits fixture for the reranker-path theorems. -/
def lexHit (name : String) (score : ℚ) : SearchResult :=
  ⟨("src/".toList ++ name.toList), score, name.toList, some "Method".toList,
    some name.toList, some 0, some 3⟩

/-- Four lexical results in descending adjusted order. -/
def resultsW9 : List SearchResult :=
  [lexHit "a.rs" 9, lexHit "b.rs" 7, lexHit "c.rs" 5, lexHit "d.rs" 3]

/-- The lexical retrieval outcome used by the witnesses. -/
def searchFnW9 : Nat → Except Str (List SearchResult) := fun _ => .ok resultsW9

/-- Neural scores for the four candidates, in submission order. -/
def scoresW9 : List ℚ := [1, 4, 2, 3]

/-- Enabled reranker configuration with `min_candidates = 3`. -/
def cfgW9 : RerankerConfig := ⟨true, 3⟩

/-! ## Java chunker (`JavaProcessor`, `src/languages/java.rs`) -/

/-- A tree-sitter parse-tree node: kind, source text, zero-based start
and end rows, and the children in source order (named and anonymous
nodes alike, as the tree cursor visits them). -/
inductive JNode where
  | node (kind : Str) (text : Str) (startRow endRow : Nat) (children : List JNode)

/-- Node kind. -/
def JNode.kind : JNode → Str
  | .node k _ _ _ _ => k

/-- The `utf8_text` of the node. -/
def JNode.text : JNode → Str
  | .node _ t _ _ _ => t

/-- The `start_position().row` of the node. -/
def JNode.startRow : JNode → Nat
  | .node _ _ r _ _ => r

/-- The `end_position().row` of the node. -/
def JNode.endRow : JNode → Nat
  | .node _ _ _ r _ => r

/-- Child nodes. -/
def JNode.children : JNode → List JNode
  | .node _ _ _ _ cs => cs

/-- Modelled from the spec: `utils::find_child_node`, referenced by
`JavaProcessor` but absent from the `language_processor.rs` of this
snapshot; per its call sites it returns the first direct child whose
kind is one of the given ones. -/
def find_child_node (kinds : List Str) (n : JNode) : Option JNode :=
  n.children.find? (fun c => decide (c.kind ∈ kinds))

/-- Model of `JavaProcessor::get_container_name` (`src/languages/java.rs`
lines 144-168): text of the first `identifier` child, `"Anonymous"`
otherwise. -/
def get_container_name (n : JNode) : Str :=
  match find_child_node ["identifier".toList] n with
  | some idNode => idNode.text
  | none => "Anonymous".toList

/-- Model of `JavaProcessor::get_method_name` (lines 170-194): text of the
first `identifier` child, if any. -/
def get_method_name (n : JNode) : Option Str :=
  (find_child_node ["identifier".toList] n).map JNode.text

/-- The container kinds that `collect_chunks_recursively` pushes onto
the nesting stack. -/
def containerKinds : List Str :=
  ["class_declaration".toList, "interface_declaration".toList, "record_declaration".toList]

/-- The chunk record built by `JavaProcessor` (`CodeChunk` of the
version `java.rs` belongs to: `start_line`, `end_line`, `chunk_type`,
`name`, `content`, `declaration`). -/
structure JavaChunk where
  start_line : Nat
  end_line : Nat
  chunk_type : ChunkType
  name : Str
  content : Str
  declaration : Str
deriving DecidableEq, Repr

/-! `JavaProcessor::collect_chunks_recursively` together with its
helper `traverse_children` (`src/languages/java.rs` lines 22-142).
The byte-offset based `extract_method_with_context` (declaration and
body strings) is abstracted as `extract`, applied to the method node
and the container stack exactly as the source does; which chunks are
emitted — the subject of the claim — does not depend on it. -/
mutual

/-- A container node pushes `(node, name)` and recurses into its
children (emitting nothing itself); a named `method_declaration`
emits one `Method` chunk and does not recurse; every other node just
recurses. -/
def collect_chunks_recursively (extract : JNode → List (JNode × Str) → Str × Str) :
    JNode → List (JNode × Str) → List JavaChunk
  | n@(JNode.node kind _ sr er children), stack =>
    if kind ∈ containerKinds then
      traverse_children extract children (stack ++ [(n, get_container_name n)])
    else if kind = "method_declaration".toList then
      match get_method_name n with
      | some method_name =>
        [{ start_line := sr, end_line := er, chunk_type := ChunkType.Method,
           name := method_name, content := (extract n stack).2,
           declaration := (extract n stack).1 }]
      | none => []
    else
      traverse_children extract children stack

/-- Visits the children in order, concatenating their chunks. -/
def traverse_children (extract : JNode → List (JNode × Str) → Str × Str) :
    List JNode → List (JNode × Str) → List JavaChunk
  | [], _ => []
  | c :: cs, stack =>
    collect_chunks_recursively extract c stack ++ traverse_children extract cs stack

end

/-- Model of `JavaProcessor::chunk_code` after a successful parse
(lines 458-494): walk from the root with an empty stack. -/
def java_chunk_code (extract : JNode → List (JNode × Str) → Str × Str) (root : JNode) :
    List JavaChunk :=
  collect_chunks_recursively extract root []

/-- An `identifier` leaf. -/
def identNode (nm : String) : JNode := .node "identifier".toList nm.toList 0 0 []

/-- An anonymous token leaf, whose kind is its text. -/
def tokNode (k : String) : JNode := .node k.toList k.toList 0 0 []

/-- tree-sitter parse of `void someMethod(){ blablaCode(); }`. -/
def someMethodNode : JNode :=
  .node "method_declaration".toList "void someMethod()\x7b blablaCode(); \x7d".toList 0 0
    [.node "void_type".toList "void".toList 0 0 [],
     identNode "someMethod",
     .node "formal_parameters".toList "()".toList 0 0 [tokNode "(", tokNode ")"],
     .node "block".toList "\x7b blablaCode(); \x7d".toList 0 0 []]

/-- tree-sitter parse of `String doSomething(){ return "text"; }`. -/
def doSomethingNode : JNode :=
  .node "method_declaration".toList
    ("String doSomething()\x7b return " ++ "\"text\"" ++ "; \x7d").toList 0 0
    [.node "type_identifier".toList "String".toList 0 0 [],
     identNode "doSomething",
     .node "formal_parameters".toList "()".toList 0 0 [tokNode "(", tokNode ")"],
     .node "block".toList ("\x7b return " ++ "\"text\"" ++ "; \x7d").toList 0 0 []]

/-- tree-sitter parse tree of the claim's source
`class FooBar { void someMethod(){ blablaCode(); } String doSomething(){ return "text"; } }`
(single line, so all rows are 0). -/
def fooBarTree : JNode :=
  .node "program".toList [] 0 0
    [.node "class_declaration".toList [] 0 0
      [tokNode "class",
       identNode "FooBar",
       .node "class_body".toList [] 0 0
         [tokNode "\x7b", someMethodNode, doSomethingNode, tokNode "\x7d"]]]

/-- The multiplicative factor contributed by the two penalties. -/
theorem apply_score_penalties_eq (s : ℚ) (path : Str) (k : Option Str) :
    apply_score_penalties s path k =
      s * (if containsSub (lowerStr path) "test".toList then (1 : ℚ)/2 else 1) *
        (if isContainerKind k then (3 : ℚ)/5 else 1) := by
  unfold apply_score_penalties isContainerKind
  split <;> split <;> simp_all

theorem apply_score_penalties_nonneg (s : ℚ) (path : Str) (k : Option Str)
    (h : 0 ≤ s) : 0 ≤ apply_score_penalties s path k := by
  rw [apply_score_penalties_eq]
  have h1 : (0:ℚ) ≤ (if containsSub (lowerStr path) "test".toList then (1 : ℚ)/2 else 1) := by
    split <;> norm_num
  have h2 : (0:ℚ) ≤ (if isContainerKind k then (3 : ℚ)/5 else 1) := by
    split <;> norm_num
  positivity

/-- C8: `apply_score_penalties` multiplies the base score by `1/2`
exactly when the lowercased path contains `"test"` and, independently,
by `3/5` exactly when the chunk kind is `Class`, `Interface` or
`Struct` (both: `3/10`, neither: unchanged); consequently, at equal
nonnegative base score, a hit in a `"test"` path scores no higher than
one that is not, and a `Method` chunk scores at least as high as a
`Class` chunk. -/
theorem C8_score_penalties (s : ℚ) (p q : Str) (k : Option Str)
    (h0 : 0 ≤ s)
    (hp : containsSub (lowerStr p) "test".toList = true)
    (hq : containsSub (lowerStr q) "test".toList = false) :
    (∀ s' path k', apply_score_penalties s' path k' =
        s' * (if containsSub (lowerStr path) "test".toList then (1 : ℚ)/2 else 1) *
          (if isContainerKind k' then (3 : ℚ)/5 else 1))
    ∧ apply_score_penalties s p k ≤ apply_score_penalties s q k
    ∧ apply_score_penalties s p (some "Class".toList) ≤
        apply_score_penalties s p (some "Method".toList) := by
  refine ⟨apply_score_penalties_eq, ?_, ?_⟩
  · have e1 := apply_score_penalties_eq s p k
    have e2 := apply_score_penalties_eq s q k
    rw [hp] at e1
    rw [hq] at e2
    simp at e1 e2
    rw [e1, e2]
    by_cases hk : isContainerKind k <;> simp only [hk, if_true, if_false] <;> nlinarith
  · rw [apply_score_penalties_eq, apply_score_penalties_eq]
    have hcl : isContainerKind (some "Class".toList) :=Or.inl rfl
    have hme : ¬ isContainerKind (some "Method".toList) := by decide
    rw [if_pos hcl, if_neg hme]
    have h1 : (0:ℚ) ≤ (if containsSub (lowerStr p) "test".toList then (1 : ℚ)/2 else 1) := by
      split <;> norm_num
    nlinarith

/-- Witness for C8 at score `10`, a test path and a non-test path. -/
theorem C8_score_penalties_witness :
    (0 : ℚ) ≤ 10 ∧
    containsSub (lowerStr "src/Tests/foo.rs".toList) "test".toList = true ∧
    containsSub (lowerStr "src/main.rs".toList) "test".toList = false ∧
    ((∀ s' path k', apply_score_penalties s' path k' =
        s' * (if containsSub (lowerStr path) "test".toList then (1 : ℚ)/2 else 1) *
          (if isContainerKind k' then (3 : ℚ)/5 else 1))
      ∧ apply_score_penalties 10 "src/Tests/foo.rs".toList (some "Method".toList) ≤
          apply_score_penalties 10 "src/main.rs".toList (some "Method".toList)
      ∧ apply_score_penalties 10 "src/Tests/foo.rs".toList (some "Class".toList) ≤
          apply_score_penalties 10 "src/Tests/foo.rs".toList (some "Method".toList)) :=
  ⟨by norm_num, by decide, by decide,
    C8_score_penalties 10 "src/Tests/foo.rs".toList "src/main.rs".toList
      (some "Method".toList) (by norm_num) (by decide) (by decide)⟩

/-- C3 counterexample: a document whose stored extension is `"RS"` is
returned by the filter `"rs"` although its stored extension differs
from `"rs"` — the `filetype` field is analyzed (lowercased), so the
match is not case-sensitive on the stored extension. -/
theorem C3_ext_filter_counterexample :
    filetypeFilterMatches "rs".toList "RS".toList ∧ "RS".toList ≠ "rs".toList := by
  constructor
  · decide
  · decide

theorem tokenizeAux_all_alphanum (s : Str) (cur : Str)
    (h : ∀ c ∈ s, c.isAlphanum = true) (hne : ¬(cur = [] ∧ s = [])) :
    tokenizeAux cur s = [cur.reverse ++ s] := by
  induction s generalizing cur with
  | nil =>
    have : ¬ cur = [] := fun hc => hne ⟨hc, rfl⟩
    simp [tokenizeAux, List.isEmpty_iff, this]
  | cons c cs ih =>
    have hc : c.isAlphanum = true := h c (by simp)
    have hcs : ∀ x ∈ cs, x.isAlphanum = true := fun x hx => h x (by simp [hx])
    simp only [tokenizeAux, hc, if_true]
    rw [ih (c :: cur) hcs (by simp)]
    simp

/-- C3 amended: for a purely alphanumeric stored extension of byte
length < 40, the filter matches a document exactly when the document's
stored extension, lowercased, equals the filter string — the term is
single and un-globbed, but matching is case-insensitive with respect
to the stored extension because the `filetype` field is analyzed by
the lowercasing default tokenizer. -/
theorem C3_ext_filter_amended (f ext : Str)
    (halpha : ∀ c ∈ ext, c.isAlphanum = true)
    (hne : ext ≠ [])
    (hlen : byteLen ext < 40) :
    filetypeFilterMatches f ext ↔ lowerStr ext = f := by
  unfold filetypeFilterMatches filetypeIndexTerms defaultAnalyze simpleTokenize
  rw [tokenizeAux_all_alphanum ext [] halpha (by simp [hne])]
  simp [hlen, eq_comm]

/-- Witness for the amended C3 at `ext = "RS"`, filter `"rs"`. -/
theorem C3_ext_filter_amended_witness :
    (∀ c ∈ "RS".toList, c.isAlphanum = true) ∧ "RS".toList ≠ [] ∧
      byteLen "RS".toList < 40 ∧
      (filetypeFilterMatches "rs".toList "RS".toList ↔
        lowerStr "RS".toList = "rs".toList) :=
  ⟨by decide, by decide, by decide,
    C3_ext_filter_amended "rs".toList "RS".toList (by decide) (by decide) (by decide)⟩

/-- C7 counterexample: for an unregistered extension, a non-empty file
consisting solely of import lines yields the empty list (not one
whole-file chunk), and when a chunk is produced its content is the
import-filtered text, not the whole file text. -/
theorem C7_fallback_counterexample :
    chunk_code_for_indexing noLangChunk "a.xyz".toList "import foo".toList = .ok []
    ∧ trim "import foo".toList ≠ []
    ∧ chunk_code_for_indexing noLangChunk "a.xyz".toList "import foo\ncode()".toList =
        .ok [{ start_byte := 0, end_byte := 17, start_line := 0, end_line := 1,
               chunk_type := .Other, name := "file".toList,
               content := "code()".toList, declaration := [] }]
    ∧ "code()".toList ≠ "import foo\ncode()".toList :=
  ⟨rfl, by decide, rfl, by decide⟩

/-- C7 amended: for an unregistered extension the fallback first drops
every line whose trimmed form starts with `import `/`use `/`from `/
`#include`/`using `; if what remains trims to empty the result is `[]`
(so an import-only file produces no chunk), otherwise it is a single
`Other` chunk named `"file"` spanning lines `0` through the last line,
whose content is the *filtered* text. -/
theorem C7_fallback_amended (langChunk : Str → Str → Except Unit (List CodeChunk))
    (path content : Str)
    (hunsup : pathExtension path ∉ registeredExtensions) :
    (chunk_code_for_indexing langChunk path content =
      if (trim (filter_imports_static content)).isEmpty then Except.ok []
      else Except.ok [fallbackChunk content])
    ∧ ((∀ line ∈ rustLines content, isImportLine line = true) →
        chunk_code_for_indexing langChunk path content = .ok []) := by
  constructor
  · unfold chunk_code_for_indexing fallbackChunk
    rw [if_neg hunsup]
    by_cases h : (trim (filter_imports_static content)).isEmpty <;> simp [h]
  · intro hall
    have hfil : (rustLines content).filter (fun line => ¬ isImportLine line) = [] := by
      rw [List.filter_eq_nil_iff]
      intro a ha
      simp [hall a ha]
    unfold chunk_code_for_indexing
    rw [if_neg hunsup]
    have : filter_imports_static content = [] := by
      unfold filter_imports_static
      rw [hfil]
      rfl
    simp [this, trim, trimStart]

/-- Witness for the amended C7 on `a.xyz` with a mixed file. -/
theorem C7_fallback_amended_witness :
    pathExtension "a.xyz".toList ∉ registeredExtensions ∧
    ((chunk_code_for_indexing noLangChunk "a.xyz".toList "import x\nhello".toList =
       if (trim (filter_imports_static "import x\nhello".toList)).isEmpty then Except.ok []
       else Except.ok [fallbackChunk "import x\nhello".toList])
     ∧ ((∀ line ∈ rustLines "import x\nhello".toList, isImportLine line = true) →
         chunk_code_for_indexing noLangChunk "a.xyz".toList "import x\nhello".toList = .ok [])) :=
  ⟨by decide, C7_fallback_amended noLangChunk "a.xyz".toList "import x\nhello".toList (by decide)⟩

theorem byteLen_append_acc (s : Str) (a : Nat) :
    s.foldl (fun a c => a + c.utf8Size) a = a + byteLen s := by
  induction s generalizing a with
  | nil => simp [byteLen]
  | cons c cs ih =>
    simp only [byteLen, List.foldl_cons]
    rw [ih (a + c.utf8Size), ih (0 + c.utf8Size)]
    omega

theorem byteLen_replicate_a (n : Nat) : byteLen (List.replicate n 'a') = n := by
  induction n with
  | zero => rfl
  | succ m ih =>
    show (List.replicate (m + 1) 'a').foldl (fun a c => a + c.utf8Size) 0 = m + 1
    rw [List.replicate_succ, List.foldl_cons, byteLen_append_acc, ih]
    have h1 : 'a'.utf8Size = 1 := rfl
    omega

theorem splitOnChar_replicate_a (n : Nat) :
    splitOnChar '\n' (List.replicate n 'a') = [List.replicate n 'a'] := by
  induction n with
  | zero => rfl
  | succ m ih =>
    simp only [List.replicate_succ, splitOnChar]
    rw [if_neg (by decide), ih]

theorem rustLines_replicate_a (n : Nat) (h : 0 < n) :
    rustLines (List.replicate n 'a') = [List.replicate n 'a'] := by
  have hne : List.replicate n 'a' ≠ ([] : Str) := by
    cases n with
    | zero => omega
    | succ m => simp [List.replicate_succ]
  have h2 : dropTrailingEmpty [List.replicate n 'a'] = [List.replicate n 'a'] := by
    unfold dropTrailingEmpty
    rw [show ([List.replicate n 'a'] : List Str).getLast? = some (List.replicate n 'a') from rfl]
    rw [if_neg (by simpa using hne)]
  have hdrop : dropCR (List.replicate n 'a') = List.replicate n 'a' := by
    unfold dropCR
    rw [List.getLast?_replicate]
    rw [if_neg (by
      cases n with
      | zero => omega
      | succ m => simp)]
  unfold rustLines
  rw [splitOnChar_replicate_a, h2]
  simp [hdrop]

/-- C5 counterexample: a readable UTF-8 file of 8097 bytes consisting
of a single 8097-byte line is silently skipped (no documents, path not
emitted) although its size is under 512 KiB and no line exceeds
8 KiB = 8192 bytes: the code's per-line cap is 8096 bytes, so a
longest line of 8097..8192 bytes IS skipped, contrary to the claim. -/
theorem C5_skip_counterexample :
    processFile noLangChunk (some (List.replicate 8097 'a')) "big.xyz".toList = ([], [])
    ∧ byteLen (List.replicate 8097 'a') ≤ 512 * 1024
    ∧ ∀ line ∈ rustLines (List.replicate 8097 'a'), byteLen line ≤ 8192 := by
  refine ⟨?_, ?_, ?_⟩
  · have key : ∀ content : Str, byteLen content = 8097 → rustLines content = [content] →
        processFile noLangChunk (some content) "big.xyz".toList = ([], []) := by
      intro content hb hr
      simp only [processFile]
      rw [hb, if_neg (by norm_num [MAX_FILE_SIZE]), hr]
      have hany : (([content] : List Str).any
          (fun line => byteLen line > MAX_LINE_LENGTH)) = true := by
        simp only [List.any_cons, List.any_nil, Bool.or_false, decide_eq_true_eq]
        rw [hb]
        norm_num [MAX_LINE_LENGTH]
      rw [if_pos hany]
    exact key _ (byteLen_replicate_a 8097) (rustLines_replicate_a 8097 (by norm_num))
  · rw [byteLen_replicate_a]; norm_num
  · intro line hline
    rw [rustLines_replicate_a 8097 (by norm_num)] at hline
    simp only [List.mem_singleton] at hline
    rw [hline, byteLen_replicate_a]
    norm_num

/-- C5 amended: the per-file worker contributes no documents (and
emits no path) exactly when the file is unreadable as UTF-8, its
content exceeds 512 KiB, some single line is longer than **8096**
bytes, or the chunker fails on it; in every other case at least one
document is produced. -/
theorem C5_skip_amended (langChunk : Str → Str → Except Unit (List CodeChunk))
    (read : Option Str) (path : Str) :
    (processFile langChunk read path).1 = [] ∧ (processFile langChunk read path).2 = []
    ↔ (read = none
       ∨ ∃ content, read = some content ∧
          (byteLen content > 512 * 1024
           ∨ (∃ line ∈ rustLines content, byteLen line > 8096)
           ∨ ∃ e, chunk_code_for_indexing langChunk path content = .error e)) := by
  cases read with
  | none => simp [processFile]
  | some content =>
    simp only [processFile, Option.some.injEq, reduceCtorEq, false_or]
    by_cases hsize : byteLen content > MAX_FILE_SIZE
    · rw [if_pos hsize]
      simp only [MAX_FILE_SIZE] at hsize
      exact ⟨fun _ => ⟨content, rfl, Or.inl hsize⟩, fun _ => ⟨rfl, rfl⟩⟩
    · rw [if_neg hsize]
      simp only [MAX_FILE_SIZE, not_lt] at hsize
      by_cases hline : ((rustLines content).any (fun line => byteLen line > MAX_LINE_LENGTH)) = true
      · rw [if_pos hline]
        simp only [List.any_eq_true, decide_eq_true_eq, MAX_LINE_LENGTH] at hline
        exact ⟨fun _ => ⟨content, rfl, Or.inr (Or.inl hline)⟩, fun _ => ⟨rfl, rfl⟩⟩
      · rw [if_neg hline]
        simp only [List.any_eq_true, decide_eq_true_eq, MAX_LINE_LENGTH,
          not_exists, not_and, not_lt] at hline
        cases hch : chunk_code_for_indexing langChunk path content with
        | error e =>
          exact ⟨fun _ => ⟨content, rfl, Or.inr (Or.inr ⟨e, hch⟩)⟩, fun _ => ⟨rfl, rfl⟩⟩
        | ok chunks =>
          simp only []
          by_cases hemp : chunks.isEmpty
          · rw [if_pos hemp]
            constructor
            · intro h1
              exact absurd h1.1 (by simp)
            · rintro ⟨c, hc, h⟩
              cases hc
              rcases h with h | h | h
              · omega
              · rcases h with ⟨l, hl, hlen⟩
                have := hline l hl
                omega
              · rcases h with ⟨e, he⟩
                rw [hch] at he
                exact absurd he (by simp)
          · rw [if_neg hemp]
            constructor
            · intro h1
              have h2 := h1.1
              rw [List.map_eq_nil_iff] at h2
              rw [h2] at hemp
              exact absurd rfl hemp
            · rintro ⟨c, hc, h⟩
              cases hc
              rcases h with h | h | h
              · omega
              · rcases h with ⟨l, hl, hlen⟩
                have := hline l hl
                omega
              · rcases h with ⟨e, he⟩
                rw [hch] at he
                exact absurd he (by simp)

/-- C10: a file that passes the read and size checks but whose chunker
output is the empty list still gets exactly one document — chunk type
`"file"`, empty declaration and name, the whole content as body,
lines `0` through line count minus one — and its path is emitted on
the returned stream. -/
theorem C10_empty_chunks_fallback_doc
    (langChunk : Str → Str → Except Unit (List CodeChunk)) (path content : Str)
    (hsize : byteLen content ≤ 512 * 1024)
    (hline : ∀ line ∈ rustLines content, byteLen line ≤ 8096)
    (hch : chunk_code_for_indexing langChunk path content = .ok []) :
    processFile langChunk (some content) path =
      ([{ path := path, declaration := [], body := content,
          filetype := pathExtension path, chunk_type := "file".toList,
          chunk_name := [], start_line := 0,
          end_line := (rustLines content).length - 1 }], [path]) := by
  simp only [processFile, hch, List.isEmpty_nil, if_true]
  rw [if_neg (by simp only [MAX_FILE_SIZE]; omega)]
  rw [if_neg (by
    simp only [List.any_eq_true, decide_eq_true_eq, MAX_LINE_LENGTH, not_exists, not_and, not_lt]
    intro l hl
    exact hline l hl)]

/-- Witness for C10: `notes.xyz` containing only `use x` — the
fallback chunker returns `.ok []` (import-only file), yet one document
with body `use x` is written and the path is emitted. -/
theorem C10_empty_chunks_fallback_doc_witness :
    byteLen "use x".toList ≤ 512 * 1024 ∧
    (∀ line ∈ rustLines "use x".toList, byteLen line ≤ 8096) ∧
    chunk_code_for_indexing noLangChunk "notes.xyz".toList "use x".toList = .ok [] ∧
    processFile noLangChunk (some "use x".toList) "notes.xyz".toList =
      ([{ path := "notes.xyz".toList, declaration := [], body := "use x".toList,
          filetype := pathExtension "notes.xyz".toList, chunk_type := "file".toList,
          chunk_name := [], start_line := 0,
          end_line := (rustLines "use x".toList).length - 1 }], ["notes.xyz".toList]) :=
  ⟨by decide, by decide, rfl,
    C10_empty_chunks_fallback_doc noLangChunk "notes.xyz".toList "use x".toList
      (by decide) (by decide) rfl⟩

/-- C6 counterexample: a metadata file that exists but whose contents
are corrupt (here: empty, shorter than the 8-byte length header) makes
`IndexMetadata::load` return an error, not an empty store. -/
theorem C6_load_counterexample :
    IndexMetadata.load (some ([] : List Byte)) bincode_deserialize =
      .error "invalid metadata blob".toList := rfl

/-- C6 amended: `load` returns the deserialized store when the file
reads and parses, the empty store when the read itself fails (missing
file), and an error — not an empty store — when the file exists but
its contents fail to deserialize. -/
theorem C6_load_amended (readResult : Option (List Byte))
    (deserialize : List Byte → Except Str IndexMetadata) :
    (readResult = none → IndexMetadata.load readResult deserialize = .ok ⟨[]⟩)
    ∧ (∀ d m, readResult = some d → deserialize d = .ok m →
        IndexMetadata.load readResult deserialize = .ok m)
    ∧ (∀ d e, readResult = some d → deserialize d = .error e →
        IndexMetadata.load readResult deserialize = .error e) := by
  refine ⟨fun h => ?_, fun d m hr hd => ?_, fun d e hr hd => ?_⟩
  · rw [h]; rfl
  · rw [hr]; exact hd
  · rw [hr]; exact hd

/-- Witness for C6: corrupt-contents branch at the empty blob, and the
well-formed empty blob (`u64` length 0). -/
theorem C6_load_amended_witness :
    bincode_deserialize ([] : List Byte) = .error "invalid metadata blob".toList ∧
    IndexMetadata.load (some ([] : List Byte)) bincode_deserialize =
      .error "invalid metadata blob".toList ∧
    bincode_deserialize [0, 0, 0, 0, 0, 0, 0, 0] = .ok ⟨[]⟩ ∧
    IndexMetadata.load (some [0, 0, 0, 0, 0, 0, 0, 0]) bincode_deserialize = .ok ⟨[]⟩ :=
  ⟨rfl,
    (C6_load_amended (some []) bincode_deserialize).2.2 [] _ rfl rfl,
    rfl,
    (C6_load_amended (some [0, 0, 0, 0, 0, 0, 0, 0]) bincode_deserialize).2.1 _ ⟨[]⟩ rfl rfl⟩

theorem containsKey_update_file (fs : Str → Option FsMeta) (m : IndexMetadata)
    (f k : Str) :
    containsKey (update_file fs m f) k = true ↔
      containsKey m k = true ∨ (k = f ∧ fs f ≠ none) := by
  unfold update_file
  cases hf : fs f with
  | none => simp [hf]
  | some md =>
    simp only [containsKey, mapInsert, List.any_cons, List.any_eq_true, Bool.or_eq_true,
      decide_eq_true_eq, List.mem_filter]
    constructor
    · rintro (h | ⟨kv, ⟨hkv, _⟩, hk⟩)
      · exact Or.inr ⟨h.symm, by simp [hf]⟩
      · exact Or.inl ⟨kv, hkv, hk⟩
    · rintro (⟨kv, hkv, hk⟩ | ⟨hk, _⟩)
      · by_cases hkf : kv.1 = f
        · exact Or.inl (by rw [← hk, hkf])
        · exact Or.inr ⟨kv, ⟨hkv, by simpa using hkf⟩, hk⟩
      · exact Or.inl hk.symm

theorem containsKey_foldl_update (fs : Str → Option FsMeta) (L : List Str)
    (m : IndexMetadata) (k : Str) :
    containsKey (L.foldl (fun m f => update_file fs m f) m) k = true ↔
      containsKey m k = true ∨ (k ∈ L ∧ fs k ≠ none) := by
  induction L generalizing m with
  | nil => simp
  | cons f fs' ih =>
    rw [List.foldl_cons, ih, containsKey_update_file]
    constructor
    · rintro ((h | ⟨hk, hne⟩) | ⟨hmem, hne⟩)
      · exact Or.inl h
      · exact Or.inr ⟨by simp [hk], by rwa [hk]⟩
      · exact Or.inr ⟨by simp [hmem], hne⟩
    · rintro (h | ⟨hmem, hne⟩)
      · exact Or.inl (Or.inl h)
      · rcases List.mem_cons.mp hmem with hk | hmem'
        · exact Or.inl (Or.inr ⟨hk, by rwa [← hk]⟩)
        · exact Or.inr ⟨hmem', hne⟩

/-- C1 counterexample: in a committed run over `a.txt` (indexed) and
`b.bin` (silently skipped: unreadable as UTF-8), the fingerprint store
nevertheless gains an entry for `b.bin`, because
`ensure_index_updated` refreshes the store for *every* scanned file,
not only the successfully indexed ones. -/
theorem C1_fingerprint_counterexample :
    (index_files noLangChunk readsW filesW).2 = ["a.txt".toList] ∧
    "b.bin".toList ∉ (index_files noLangChunk readsW filesW).2 ∧
    containsKey
      (ensure_index_updated_fingerprints fsW ⟨[]⟩
        (index_files noLangChunk readsW filesW).2 filesW)
      "b.bin".toList = true := by
  refine ⟨rfl, by decide, ?_⟩
  rfl

/-- C1 amended: after the update phase of `ensure_index_updated`, the
fingerprint store has an entry for a path exactly when it already had
one, or the path is among the scanned or indexed files and still
exists on the filesystem — silently skipped files that exist on disk
do gain an entry in this batch. -/
theorem C1_fingerprint_amended (fs : Str → Option FsMeta) (loaded : IndexMetadata)
    (indexed_files files : List Str) (k : Str) :
    containsKey (ensure_index_updated_fingerprints fs loaded indexed_files files) k = true
    ↔ containsKey loaded k = true ∨ ((k ∈ indexed_files ∨ k ∈ files) ∧ fs k ≠ none) := by
  unfold ensure_index_updated_fingerprints
  rw [containsKey_foldl_update, containsKey_foldl_update]
  tauto

theorem exbind_ok {α β : Type} (a : α) (f : α → Except Str β) :
    (Except.ok a >>= f) = f a := rfl

theorem exbind_err {α β : Type} (e : Str) (f : α → Except Str β) :
    ((Except.error e : Except Str α) >>= f) = .error e := rfl

theorem rerank_enabled_ok (docs : List RerankDocument) (scores : List ℚ) (l : Nat)
    (hne : docs.isEmpty = false) :
    rerank true docs (.ok scores) (some l) =
      .ok ⟨((sortByScoreDesc (docs.zip scores)).take l).map Prod.fst,
           ((sortByScoreDesc (docs.zip scores)).take l).map Prod.snd⟩ := by
  unfold rerank
  rw [if_neg (by simp [hne])]
  rfl

theorem rerank_enabled_err (docs : List RerankDocument) (e : Str) (l : Nat)
    (hne : docs.isEmpty = false) :
    rerank true docs (.error e) (some l) = .error e := by
  unfold rerank
  rw [if_neg (by simp [hne])]
  rfl

theorem enumFrom_scores_map (f : RerankDocument → ℚ → SearchResult) :
    ∀ (ds : List RerankDocument) (n : Nat) (full ss : List ℚ),
      (∀ j, full[n + j]? = ss[j]?) → ds.length = ss.length →
      (List.enumFrom n ds).map (fun p => f p.2 ((full[p.1]?).getD 0)) =
        (ds.zip ss).map (fun p => f p.1 p.2) := by
  intro ds
  induction ds with
  | nil => intro n full ss _ _; rfl
  | cons d ds ih =>
    intro n full ss hfull hlen
    cases ss with
    | nil => simp at hlen
    | cons s ss =>
      rw [List.enumFrom_cons, List.map_cons, List.zip_cons_cons, List.map_cons]
      have hhead : full[n]? = some s := by
        have := hfull 0
        simpa using this
      rw [show n + 1 = n + 1 from rfl]
      congr 1
      · simp [hhead]
      · refine ih (n + 1) full ss (fun j => ?_) (by simpa using hlen)
        have h1 : n + 1 + j = n + (j + 1) := by omega
        rw [h1, hfull (j + 1)]
        simp

theorem enum_scores_map (f : RerankDocument → ℚ → SearchResult)
    (ds : List RerankDocument) (ss : List ℚ) (h : ds.length = ss.length) :
    ds.enum.map (fun p => f p.2 ((ss[p.1]?).getD 0)) =
      (ds.zip ss).map (fun p => f p.1 p.2) :=
  enumFrom_scores_map f ds 0 ss ss (fun j => by simp) h

/-- C2 counterexample: with reranking enabled, two lexical hits
available and `Reranker::new` failing, `search_with_reranker` returns
the construction error — it does not fall back to the adjusted lexical
ranking. -/
theorem C2_rerank_fallback_counterexample :
    search_with_reranker cfgW9 none searchFnW9
        (.error "Failed to initialize reranking model".toList) (.ok scoresW9) =
      .error "Failed to initialize reranking model".toList ∧
    ∀ res : List SearchResult,
      search_with_reranker cfgW9 none searchFnW9
          (.error "Failed to initialize reranking model".toList) (.ok scoresW9) ≠
        .ok res := by
  refine ⟨rfl, fun res h => ?_⟩
  rw [show search_with_reranker cfgW9 none searchFnW9
      (.error "Failed to initialize reranking model".toList) (.ok scoresW9) =
      .error "Failed to initialize reranking model".toList from rfl] at h
  exact absurd h (by simp)

/-- C2 amended: when reranking is enabled and the lexical search
returns at least two hits, a failure of the reranker — either its
construction or the rerank call — is propagated as the error of
`search_with_reranker`; no lexical fallback happens. -/
theorem C2_rerank_fallback_amended (cfg : RerankerConfig) (limit : Option Nat)
    (searchFn : Nat → Except Str (List SearchResult)) (results : List SearchResult)
    (e : Str)
    (hen : cfg.enabled = true)
    (hres : searchFn (fetch_limit_of cfg (limit.getD 5)) = .ok results)
    (hlen : 2 ≤ results.length) :
    (∀ modelOut, search_with_reranker cfg limit searchFn (.error e) modelOut = .error e)
    ∧ search_with_reranker cfg limit searchFn (.ok ()) (.error e) = .error e := by
  have hcond : (cfg.enabled = true ∧ 2 ≤ results.length) := ⟨hen, hlen⟩
  have hne : (results.map toRerankDocument).isEmpty = false := by
    cases results with
    | nil => simp at hlen
    | cons r rs => simp
  constructor
  · intro modelOut
    simp only [search_with_reranker]
    rw [hres, exbind_ok, if_pos hcond, exbind_err]
  · simp only [search_with_reranker]
    rw [hres, exbind_ok, if_pos hcond, exbind_ok, hen,
      rerank_enabled_err (results.map toRerankDocument) e (limit.getD 5) hne, exbind_err]

/-- Witness for the amended C2 at the four-hit fixture. -/
theorem C2_rerank_fallback_amended_witness :
    cfgW9.enabled = true ∧
    searchFnW9 (fetch_limit_of cfgW9 4) = .ok resultsW9 ∧
    2 ≤ resultsW9.length ∧
    ((∀ modelOut, search_with_reranker cfgW9 (some 2) searchFnW9
        (.error "boom".toList) modelOut = .error "boom".toList)
      ∧ search_with_reranker cfgW9 (some 2) searchFnW9 (.ok ())
          (.error "boom".toList) = .error "boom".toList) :=
  ⟨rfl, rfl, by decide,
    C2_rerank_fallback_amended cfgW9 (some 2) searchFnW9 resultsW9 "boom".toList
      rfl rfl (by decide)⟩

/-- C9: with reranking enabled and at least two lexical hits, the
candidates are fetched at `fetch_limit = max(min_candidates,
final_limit*2)`, the output is the rerank-sorted, truncated list whose
scores are exactly the reranker's scores (the adjusted lexical scores
are discarded), and at most `final_limit` results come back in the
reranker's order; when reranking is disabled or fewer than two hits
return, the lexical results are truncated to `final_limit` unchanged. -/
theorem C9_rerank_semantics (cfg : RerankerConfig) (limit : Option Nat)
    (searchFn : Nat → Except Str (List SearchResult)) (results : List SearchResult)
    (scores : List ℚ)
    (hres : searchFn (fetch_limit_of cfg (limit.getD 5)) = .ok results)
    (hsc : scores.length = results.length) :
    (fetch_limit_of cfg (limit.getD 5) =
      if cfg.enabled then max cfg.min_candidates ((limit.getD 5) * 2) else limit.getD 5)
    ∧ (cfg.enabled = true → 2 ≤ results.length →
        ∃ pairs : List (RerankDocument × ℚ),
          pairs = (sortByScoreDesc ((results.map toRerankDocument).zip scores)).take
            (limit.getD 5)
          ∧ search_with_reranker cfg limit searchFn (.ok ()) (.ok scores) =
              .ok (pairs.map (fun p => ofRerankDocument p.1 p.2))
          ∧ (pairs.map (fun p => ofRerankDocument p.1 p.2)).length ≤ limit.getD 5
          ∧ (pairs.map (fun p => ofRerankDocument p.1 p.2)).map (fun r => r.score) =
              pairs.map Prod.snd)
    ∧ (¬(cfg.enabled = true ∧ 2 ≤ results.length) →
        search_with_reranker cfg limit searchFn (.ok ()) (.ok scores) =
          .ok (results.take (limit.getD 5))) := by
  refine ⟨rfl, fun hen hlen => ?_, fun hnot => ?_⟩
  · refine ⟨(sortByScoreDesc ((results.map toRerankDocument).zip scores)).take
      (limit.getD 5), rfl, ?_, ?_, ?_⟩
    · have hcond : (cfg.enabled = true ∧ 2 ≤ results.length) := ⟨hen, hlen⟩
      have hne : (results.map toRerankDocument).isEmpty = false := by
        cases results with
        | nil => simp at hlen
        | cons r rs => simp
      simp only [search_with_reranker]
      rw [hres, exbind_ok, if_pos hcond, exbind_ok, hen,
        rerank_enabled_ok (results.map toRerankDocument) scores (limit.getD 5) hne,
        exbind_ok]
      show Except.ok _ = Except.ok _
      congr 1
      set pairs := (sortByScoreDesc ((results.map toRerankDocument).zip scores)).take
        (limit.getD 5) with hpairs
      have hlens : (pairs.map Prod.fst).length = (pairs.map Prod.snd).length := by
        simp
      have hmain := enum_scores_map ofRerankDocument (pairs.map Prod.fst)
        (pairs.map Prod.snd) hlens
      rw [hmain]
      have hz : (pairs.map Prod.fst).zip (pairs.map Prod.snd) = pairs := by
        have h := List.zip_unzip pairs
        rwa [List.unzip_eq_map] at h
      rw [hz]
    · rw [List.length_map]
      exact le_trans (List.length_take_le _ _) (le_refl _)
    · rw [List.map_map]
      rfl
  · simp only [search_with_reranker]
    rw [hres, exbind_ok, if_neg hnot]
    rfl

/-- Witness for C9 at the four-hit fixture with `final_limit = 2`:
the reranker reverses b/d and a/c, and the two returned results carry
scores 4 and 3. -/
theorem C9_rerank_semantics_witness :
    searchFnW9 (fetch_limit_of cfgW9 (some 2 |>.getD 5)) = .ok resultsW9 ∧
    scoresW9.length = resultsW9.length ∧
    cfgW9.enabled = true ∧ 2 ≤ resultsW9.length ∧
    search_with_reranker cfgW9 (some 2) searchFnW9 (.ok ()) (.ok scoresW9) =
      .ok [ofRerankDocument (toRerankDocument (lexHit "b.rs" 7)) 4,
           ofRerankDocument (toRerankDocument (lexHit "d.rs" 3)) 3] := by
  refine ⟨rfl, by decide, rfl, by decide, ?_⟩
  obtain ⟨-, hb, -⟩ := C9_rerank_semantics cfgW9 (some 2) searchFnW9 resultsW9 scoresW9
    rfl (by decide)
  obtain ⟨pairs, hp, hout, -, -⟩ := hb rfl (by decide)
  rw [hout, hp]
  show Except.ok _ = Except.ok _
  congr 1

/-- C4, evaluating the code at the failing input: on the claim's
`FooBar` source the walk emits exactly the two `Method` chunks
`someMethod` and `doSomething`, in order, and **no** chunk of kind
`Class` — the container branch pushes the class onto the stack but
never emits a chunk for it, contradicting the claim and the
repository's own tests (`src/languages/tests/java_test.rs`, which
expect `1 class + 2 methods = 3 chunks`). -/
theorem C4_java_no_class_chunk (extract : JNode → List (JNode × Str) → Str × Str) :
    ((java_chunk_code extract fooBarTree).map (fun c => (c.chunk_type, c.name)) =
      [(ChunkType.Method, "someMethod".toList), (ChunkType.Method, "doSomething".toList)])
    ∧ ∀ c ∈ java_chunk_code extract fooBarTree, c.chunk_type ≠ ChunkType.Class := by
  have h1 : (java_chunk_code extract fooBarTree).map (fun c => (c.chunk_type, c.name)) =
      [(ChunkType.Method, "someMethod".toList), (ChunkType.Method, "doSomething".toList)] := by
    simp only [java_chunk_code, fooBarTree, someMethodNode, doSomethingNode, identNode,
      tokNode, collect_chunks_recursively, traverse_children]
    simp [containerKinds, get_method_name, get_container_name, find_child_node,
      JNode.children, JNode.kind, JNode.text]
  refine ⟨h1, fun c hc hcl => ?_⟩
  have hmem := List.mem_map_of_mem (fun c => (c.chunk_type, c.name)) hc
  rw [h1] at hmem
  simp only [List.mem_cons, List.not_mem_nil, or_false] at hmem
  rcases hmem with h | h
  · have hfst := congrArg Prod.fst h
    simp [hcl] at hfst
  · have hfst := congrArg Prod.fst h
    simp [hcl] at hfst

end Probe

